import Mathlib

/-
Verification of the keno-tracker statistical core (src/analyzer.py).

The development shallowly embeds the analysis pipeline of analyzer.py:
board topology (get_position, get_neighbors, get_board_region), frequency
counting over tokenized draw strings (count_frequencies), the binomial
z-score and confidence (calculate_z_score, norm_cdf, z_to_confidence),
spatial cluster and weighted scores (calculate_scores), top-10 selection
(select_top_10), dominant-region selection (find_dominant_cluster_region),
the alert qualifying set and combined rarity (build_email_html's
computation), and the run_analyzer control flow.

Modelling conventions:
 - Python floats are modelled by real numbers; math.erf is modelled by the
   error function's integral definition.
 - Python strings are modelled as lists of characters.  str.isdigit is
   modelled on the code points occurring in this development (see
   pyIsDigitChar); int() raising ValueError is modelled by Option/Except.
 - A Python dict with string keys is modelled by its insertion-ordered key
   list together with its value function (Python 3.7+ dicts preserve
   insertion order, and max() over a dict iterates its keys in that order).
 - collections.defaultdict(int) is modelled by a total function that is 0
   outside the keys that were bumped; freq.get(n, 0) then reads that
   function directly.
 - pandas DataFrame rows are modelled as a list of DrawRecord values;
   df.sort_values over unique game ids is modelled by a stable insertion
   sort, and df.tail(k) by pyTail.
-/

namespace KenoTracker

/-! ## Configuration constants (analyzer.py lines 23-26, 37-38) -/

def BOARD_ROWS : ℕ := 8

def BOARD_COLS : ℕ := 10

def GAMES_TO_ANALYZE : ℕ := 500

def MIN_GAMES_REQUIRED : ℕ := 100

noncomputable def ALERT_THRESHOLD : ℝ := 90.0

def MIN_NUMBERS_FOR_ALERT : ℕ := 3

/-! ## Board topology (analyzer.py lines 40-60) -/

/-- Embeds get_position: n = number - 1; (n // BOARD_COLS, n % BOARD_COLS). -/
def get_position (number : ℕ) : ℕ × ℕ :=
  ((number - 1) / BOARD_COLS, (number - 1) % BOARD_COLS)

/-- Embeds get_neighbors: for dr, dc in {-1,0,1}, skipping (0,0), keep
r = row+dr, c = col+dc when 0 ≤ r < BOARD_ROWS and 0 ≤ c < BOARD_COLS and
append r * BOARD_COLS + c + 1.  Coordinates go through ℤ because dr, dc can
be negative. -/
def get_neighbors (number : ℕ) : List ℕ :=
  let row : ℤ := (get_position number).1
  let col : ℤ := (get_position number).2
  (([-1, 0, 1] : List ℤ).map (fun dr =>
    ([-1, 0, 1] : List ℤ).filterMap (fun dc =>
      if dr = 0 ∧ dc = 0 then none
      else
        let r := row + dr
        let c := col + dc
        if 0 ≤ r ∧ r < (BOARD_ROWS : ℤ) ∧ 0 ≤ c ∧ c < (BOARD_COLS : ℤ) then
          some (r * (BOARD_COLS : ℤ) + c + 1).toNat
        else none))).flatten

/-- Embeds get_board_region: vertical band from the row, horizontal band
from the column, joined with a dash. -/
def get_board_region (number : ℕ) : String :=
  let rc := get_position number
  let vertical := if rc.1 < 3 then "Top" else if rc.1 < 5 then "Middle" else "Bottom"
  let horizontal := if rc.2 < 4 then "Left" else if rc.2 < 6 then "Center" else "Right"
  vertical ++ "-" ++ horizontal

/-- A corner cell of the 8x10 board: both coordinates on the boundary. -/
def isCorner (n : ℕ) : Bool :=
  ((get_position n).1 = 0 || (get_position n).1 = 7) &&
    ((get_position n).2 = 0 || (get_position n).2 = 9)

/-- An edge (non-corner boundary) cell of the 8x10 board. -/
def isEdgeCell (n : ℕ) : Bool :=
  (((get_position n).1 = 0 || (get_position n).1 = 7) ||
    ((get_position n).2 = 0 || (get_position n).2 = 9)) && !isCorner n

/-! ## Statistics (analyzer.py lines 65-77) -/

/-- The Gauss error function, the model of Python's math.erf. -/
noncomputable def erf (x : ℝ) : ℝ :=
  2 / Real.sqrt Real.pi * ∫ t in (0:ℝ)..x, Real.exp (-t ^ 2)

/-- Embeds norm_cdf: (1.0 + erf(z / sqrt(2.0))) / 2.0. -/
noncomputable def norm_cdf (z : ℝ) : ℝ :=
  (1.0 + erf (z / Real.sqrt 2.0)) / 2.0

/-- Embeds calculate_z_score: p = 20/80, expected = n*p,
std_dev = sqrt(n*p*(1-p)); 0.0 when std_dev == 0, else
(observed - expected) / std_dev. -/
noncomputable def calculate_z_score (observed n_games : ℕ) : ℝ :=
  if Real.sqrt ((n_games : ℝ) * (20 / 80) * (1 - 20 / 80)) = 0 then 0.0
  else ((observed : ℝ) - (n_games : ℝ) * (20 / 80)) /
    Real.sqrt ((n_games : ℝ) * (20 / 80) * (1 - 20 / 80))

/-- Embeds z_to_confidence: norm_cdf(z) * 100.0. -/
noncomputable def z_to_confidence (z : ℝ) : ℝ := norm_cdf z * 100.0

/-! ## Tokenizing and frequency counting (analyzer.py lines 96-106) -/

/-- Models Python str.strip(): drop whitespace from both ends. -/
def pyStrip (s : List Char) : List Char :=
  ((s.dropWhile Char.isWhitespace).reverse.dropWhile Char.isWhitespace).reverse

/-- Models str.replace(",", "-"). -/
def pyReplaceCommas (s : List Char) : List Char :=
  s.map (fun c => if c = ',' then '-' else c)

/-- Models str.split("-"): Python's split always returns at least one
(possibly empty) token, and adjacent separators produce empty tokens. -/
def splitDash : List Char → List (List Char)
  | [] => [[]]
  | c :: cs =>
    if c = '-' then [] :: splitDash cs
    else
      match splitDash cs with
      | [] => [[c]]
      | t :: ts => (c :: t) :: ts

/-- Models Python str.isdigit on one character, restricted to the code
points that occur in this development: the ASCII decimal digits together
with the superscript digits U+00B9, U+00B2, U+00B3.  Python classifies the
superscripts as digits (str.isdigit() = True) although they are not decimal
digits (str.isdecimal() = False) and int() rejects them with ValueError. -/
def pyIsDigitChar (c : Char) : Bool :=
  c.isDigit || c = '¹' || c = '²' || c = '³'

/-- Models str.isdigit on a string: nonempty and every character a digit. -/
def pyIsDigitStr (s : List Char) : Bool :=
  !s.isEmpty && s.all pyIsDigitChar

/-- Models int(s) on the already-stripped digit-class strings reaching it in
count_frequencies: it succeeds exactly when every character is a decimal
digit, and raises ValueError (here: none) otherwise — in particular on the
superscript digits, which pass str.isdigit but are not decimal digits. -/
def pyInt (s : List Char) : Option ℕ :=
  if !s.isEmpty && s.all Char.isDigit then
    some (s.foldl (fun a c => 10 * a + (c.toNat - 48)) 0)
  else none

/-- Pointwise increment of a defaultdict(int) modelled as a total function:
freq[n] += 1. -/
def bump (f : ℕ → ℕ) (n : ℕ) : ℕ → ℕ :=
  fun m => if m = n then f m + 1 else f m

/-- One row of the results DataFrame: a Game ID and its Numbers cell. -/
structure DrawRecord where
  gameId : ℕ
  numbers : List Char
  deriving DecidableEq

/-- The token list of one draw: str(row["Numbers"]).replace(",", "-").split("-"). -/
def drawTokens (numbers : List Char) : List (List Char) :=
  splitDash (pyReplaceCommas numbers)

/-- The body of count_frequencies' inner loop for one token: strip it, and
if it isdigit, convert with int() — which can raise, modelled by
Except.error — and bump the count when 1 <= n <= 80. -/
def addToken (f : ℕ → ℕ) (tok : List Char) : Except String (ℕ → ℕ) :=
  let p := pyStrip tok
  if pyIsDigitStr p then
    match pyInt p with
    | some n => Except.ok (if 1 ≤ n ∧ n ≤ 80 then bump f n else f)
    | none => Except.error "ValueError: invalid literal for int"
  else Except.ok f

/-- Processes one DrawRecord of count_frequencies' outer loop. -/
def addDraw (f : ℕ → ℕ) (r : DrawRecord) : Except String (ℕ → ℕ) :=
  (drawTokens r.numbers).foldlM addToken f

/-- Embeds count_frequencies: fold the draw rows over a zero-initialised
defaultdict.  A ValueError raised by int() propagates (Except.error). -/
def count_frequencies (df : List DrawRecord) : Except String (ℕ → ℕ) :=
  df.foldlM addDraw (fun _ => 0)

/-- The value a token contributes to the counts, when it contributes: the
stripped token must pass isdigit, parse as an int and lie in [1, 80]. -/
def tokenValue (tok : List Char) : Option ℕ :=
  let p := pyStrip tok
  if pyIsDigitStr p then
    match pyInt p with
    | some n => if 1 ≤ n ∧ n ≤ 80 then some n else none
    | none => none
  else none

/-- All accepted token values of a window, one per counted occurrence, in
scan order. -/
def acceptedTokens (df : List DrawRecord) : List ℕ :=
  (df.map (fun r => (drawTokens r.numbers).filterMap tokenValue)).flatten

/-! ## Per-number scores (analyzer.py lines 108-120) -/

/-- The key list of the score dicts: range(1, 81). -/
def scoreKeys : List ℕ := List.range' 1 80

/-- The z-score entry for number n: calculate_z_score(freq.get(n, 0), n_games). -/
noncomputable def z_val (freq : ℕ → ℕ) (n_games n : ℕ) : ℝ :=
  calculate_z_score (freq n) n_games

/-- The cluster-score entry for number n: all_z = [z(n)] + [z(nb) for nb in
neighbors], sum(all_z) / len(all_z).  The z_scores dict has every key in
1..80 and every neighbor lies in 1..80, so the dict lookups are the function
z_val. -/
noncomputable def cluster_val (freq : ℕ → ℕ) (n_games n : ℕ) : ℝ :=
  (z_val freq n_games n :: (get_neighbors n).map (z_val freq n_games)).sum /
    (((z_val freq n_games n :: (get_neighbors n).map (z_val freq n_games)).length : ℕ) : ℝ)

/-- The weighted-score entry for number n: 0.6 * cluster + 0.4 * z. -/
noncomputable def weighted_val (freq : ℕ → ℕ) (n_games n : ℕ) : ℝ :=
  0.6 * cluster_val freq n_games n + 0.4 * z_val freq n_games n

/-- The confidence entry for number n: z_to_confidence(z_scores[n]). -/
noncomputable def conf_val (freq : ℕ → ℕ) (n_games n : ℕ) : ℝ :=
  z_to_confidence (z_val freq n_games n)

/-- Embeds calculate_scores: the four dicts {n: value for n in range(1, 81)},
each modelled as an association list keyed by 1..80. -/
noncomputable def calculate_scores (freq : ℕ → ℕ) (n_games : ℕ) :
    List (ℕ × ℝ) × List (ℕ × ℝ) × List (ℕ × ℝ) × List (ℕ × ℝ) :=
  (scoreKeys.map (fun n => (n, z_val freq n_games n)),
   scoreKeys.map (fun n => (n, cluster_val freq n_games n)),
   scoreKeys.map (fun n => (n, weighted_val freq n_games n)),
   scoreKeys.map (fun n => (n, conf_val freq n_games n)))

/-! ## Top-10 selection (analyzer.py lines 122-124) -/

/-- The ranking order select_top_10 realises: strictly higher weighted score
first, and of two equal scores the lower number first. -/
def rankPrecede {α : Type} [LinearOrder α] (key : ℕ → α) (a b : ℕ) : Prop :=
  key b < key a ∨ (key b = key a ∧ a < b)

/-- Stable descending insertion: a is placed after every earlier element
whose key is at least key a, so equal keys keep their original order. -/
def insertDesc {α : Type} [LinearOrder α] (key : ℕ → α) (a : ℕ) :
    List ℕ → List ℕ
  | [] => [a]
  | b :: bs => if key b < key a then a :: b :: bs else b :: insertDesc key a bs

/-- A stable descending sort by key, processing the input in order.  Python's
sorted(..., reverse=True) is stable, and a stable descending sort's output is
unique, so this models it. -/
def pySortDesc {α : Type} [LinearOrder α] (key : ℕ → α) (l : List ℕ) : List ℕ :=
  l.foldl (fun acc a => insertDesc key a acc) []

/-- Embeds select_top_10: sorted(weighted_scores.keys(), key=..., reverse=True)[:10].
The weighted_scores dict is always built over range(1, 81), so its key list
is scoreKeys; the dict itself is modelled by its lookup function.  Generic in
the score type, which the pipeline instantiates with ℝ. -/
def select_top_10 {α : Type} [LinearOrder α] (weighted_scores : ℕ → α) : List ℕ :=
  (pySortDesc weighted_scores scoreKeys).take 10

/-! ## Dominant region (analyzer.py lines 126-130) -/

/-- A Python dict from strings to ints, modelled by its insertion-ordered
key list and its value function. -/
structure PyCountDict where
  keys : List String
  val : String → ℕ

/-- region_counts[r] += 1 on the dict model: a new key is appended. -/
def incrKey (d : PyCountDict) (r : String) : PyCountDict :=
  ⟨if r ∈ d.keys then d.keys else d.keys ++ [r],
   fun x => if x = r then d.val x + 1 else d.val x⟩

/-- The region_counts defaultdict of find_dominant_cluster_region. -/
def region_counts (top_10 : List ℕ) : PyCountDict :=
  top_10.foldl (fun d n => incrKey d (get_board_region n)) ⟨[], fun _ => 0⟩

/-- Python's max(key=f) over a nonempty iterable tail: the running best is
replaced only when a later element is strictly greater, so of several maxima
the first encountered is returned. -/
def pyMaxAux (f : String → ℕ) (b : String) : List String → String
  | [] => b
  | x :: xs => pyMaxAux f (if f b < f x then x else b) xs

/-- Embeds find_dominant_cluster_region: max(region_counts, key=
region_counts.get), iterating the dict's keys in insertion order; none for
an empty dict (Python's max would raise there). -/
def find_dominant_cluster_region (top_10 : List ℕ) : Option String :=
  match (region_counts top_10).keys with
  | [] => none
  | k :: ks => some (pyMaxAux (region_counts top_10).val k ks)

/-- The keys of a string dict filled by scanning a list, in insertion order:
each element's first occurrence, kept in scan order. -/
def dictKeys : List String → List String
  | [] => []
  | r :: rs => r :: (dictKeys rs).filter (fun x => x ≠ r)

/-- The tally of region r over a top-10 list: how many of the numbers lie in
region r. -/
def regionTally (top_10 : List ℕ) (r : String) : ℕ :=
  (top_10.map get_board_region).count r

/-- The largest tally any value reaches in a string list. -/
def maxTally (m : List String) : ℕ :=
  (m.map (fun r => m.count r)).foldl max 0

/-- Modelled from the spec's words for the C1 tie-break (not from the code):
scanning the ranked regions in order, return the first region whose running
tally reaches the maximum tally. -/
def firstToReachMaxAux (maxT : ℕ) (seen : List String) :
    List String → Option String
  | [] => none
  | r :: rs =>
    if (r :: seen).count r = maxT then some r
    else firstToReachMaxAux maxT (r :: seen) rs

/-- Modelled from the spec's words: the region that first reaches the
maximum tally when scanning the top-10 numbers in rank order. -/
def firstRegionToReachMax (top_10 : List ℕ) : Option String :=
  let m := top_10.map get_board_region
  firstToReachMaxAux (maxTally m) [] m

/-! ## Alert qualifying set and combined rarity (analyzer.py lines 261-266, 387) -/

/-- The qualifying subset: [n for n in top_10 if confidence[n] >= ALERT_THRESHOLD]. -/
noncomputable def qualifying (top_10 : List ℕ) (confidence : ℕ → ℝ) : List ℕ :=
  top_10.filter (fun n => ALERT_THRESHOLD ≤ confidence n)

/-- The combined probability of build_email_html: combined_p starts at 1.0
and is multiplied by (1.0 - confidence[n] / 100.0) for each qualifying n. -/
noncomputable def combined_p (q : List ℕ) (confidence : ℕ → ℝ) : ℝ :=
  q.foldl (fun acc n => acc * (1.0 - confidence n / 100.0)) 1.0

/-- The combined rarity as reported: combined_p * 100 (a percentage). -/
noncomputable def combined_rarity (q : List ℕ) (confidence : ℕ → ℝ) : ℝ :=
  combined_p q confidence * 100

/-! ## Data loading and the run (analyzer.py lines 82-94, 361-398) -/

/-- Stable ascending insertion by Game ID. -/
def insertAsc (r : DrawRecord) : List DrawRecord → List DrawRecord
  | [] => [r]
  | b :: bs => if r.gameId < b.gameId then r :: b :: bs else b :: insertAsc r bs

/-- Models df.sort_values("Game ID", ascending=True): a stable ascending
sort (Game IDs are unique in practice, so stability is immaterial). -/
def sortById (recs : List DrawRecord) : List DrawRecord :=
  recs.foldl (fun acc r => insertAsc r acc) []

/-- Models df.tail(k): the last k rows (all rows when fewer). -/
def pyTail {α : Type} (k : ℕ) (l : List α) : List α :=
  l.drop (l.length - k)

/-- Embeds load_and_prepare_data on an existing CSV: sort by Game ID, skip
(none) when fewer than MIN_GAMES_REQUIRED rows, else keep the last
GAMES_TO_ANALYZE rows. -/
def load_and_prepare_data (recs : List DrawRecord) : Option (List DrawRecord) :=
  if (sortById recs).length < MIN_GAMES_REQUIRED then none
  else some (pyTail GAMES_TO_ANALYZE (sortById recs))

/-- The two terminal pipeline outcomes: a skip, or a completed analysis with
its top 10, dominant region and qualifying count. -/
inductive Outcome where
  | skipped : Outcome
  | completed (top_10 : List ℕ) (dominant_region : Option String)
      (qualifyingCount : ℕ) : Outcome

/-- Embeds run_analyzer's computational path: skip when load_and_prepare_data
returns none, otherwise count frequencies (which can raise, propagated by
Except), score, select the top 10, pick the dominant region and form the
qualifying set.  Rendering and e-mail delivery are outside the core. -/
noncomputable def run_analyzer (recs : List DrawRecord) : Except String Outcome :=
  match load_and_prepare_data recs with
  | none => Except.ok Outcome.skipped
  | some df =>
      Except.bind (count_frequencies df) (fun freq =>
        Except.ok (Outcome.completed
          (select_top_10 (weighted_val freq df.length))
          (find_dominant_cluster_region (select_top_10 (weighted_val freq df.length)))
          (qualifying (select_top_10 (weighted_val freq df.length))
            (conf_val freq df.length)).length))

/-- A window of exactly MIN_GAMES_REQUIRED draws whose Numbers cell is the
single character U+00B2 (superscript two). -/
def badWindow : List DrawRecord :=
  List.replicate MIN_GAMES_REQUIRED ⟨1, ['²']⟩

/-! ## Basic facts about the board topology -/

/-- Every number on the board has a duplicate-free neighbor list that does
not contain the number itself, and self plus neighbors counts 4, 6 or 9
elements according to the position class. -/
theorem neighbors_facts : ∀ n, n < 81 → 1 ≤ n →
    ((get_neighbors n).Nodup ∧ n ∉ get_neighbors n ∧
      1 + (get_neighbors n).length =
        (if isCorner n then 4 else if isEdgeCell n then 6 else 9)) := by decide

set_option maxRecDepth 8000 in
/-- C10: the neighbor relation is symmetric and irreflexive on 1..80. -/
theorem neighbor_symm_irrefl (m n : ℕ) (hm1 : 1 ≤ m) (hm2 : m ≤ 80)
    (hn1 : 1 ≤ n) (hn2 : n ≤ 80) :
    (m ∈ get_neighbors n ↔ n ∈ get_neighbors m) ∧ n ∉ get_neighbors n := by
  have H : ∀ m, m < 80 → ∀ n, n < 80 →
      (((m + 1) ∈ get_neighbors (n + 1) ↔ (n + 1) ∈ get_neighbors (m + 1)) ∧
        (n + 1) ∉ get_neighbors (n + 1)) := by
    decide
  have hm : m - 1 + 1 = m := by omega
  have hn : n - 1 + 1 = n := by omega
  have := H (m - 1) (by omega) (n - 1) (by omega)
  rwa [hm, hn] at this

/-- Witness for C10 at m = 2, n = 1: 2 and 1 are mutual neighbors and 1 is
not its own neighbor. -/
theorem neighbor_symm_irrefl_witness :
    (2 ∈ get_neighbors 1 ↔ 1 ∈ get_neighbors 2) ∧ 1 ∉ get_neighbors 1 :=
  neighbor_symm_irrefl 2 1 (by decide) (by decide) (by decide) (by decide)

/-! ## Statistics: z-score, guard and confidence -/

/-- C7: when the standard deviation is 0 the z-score is 0 rather than a
division, and once n_games ≥ 1 (the minimum-window check passed) the zero
standard deviation branch is unreachable. -/
theorem z_score_guard (observed n_games : ℕ) :
    (Real.sqrt ((n_games : ℝ) * (20 / 80) * (1 - 20 / 80)) = 0 →
      calculate_z_score observed n_games = 0) ∧
    (1 ≤ n_games → Real.sqrt ((n_games : ℝ) * (20 / 80) * (1 - 20 / 80)) ≠ 0) := by
  constructor
  · intro h
    unfold calculate_z_score
    rw [if_pos h]
    norm_num
  · intro h
    have h1 : (1 : ℝ) ≤ (n_games : ℝ) := by exact_mod_cast h
    have hpos : 0 < (n_games : ℝ) * (20 / 80) * (1 - 20 / 80) := by nlinarith
    exact (Real.sqrt_pos.mpr hpos).ne'

/-- Witness for C7 at n_games = 100: the standard deviation is nonzero. -/
theorem z_score_guard_witness :
    Real.sqrt ((100 : ℝ) * (20 / 80) * (1 - 20 / 80)) ≠ 0 :=
  (z_score_guard 25 100).2 (by norm_num)

/-- C6: the z-score is (c − n·0.25)/√(n·0.25·0.75) (0 when the standard
deviation is 0), the confidence is Φ(z)·100 with Φ(z) = (1 + erf(z/√2))/2
computed from the individual z-score only, and observed = 25 with
n_games = 100 gives z = 0 and confidence 50. -/
theorem z_score_confidence_formulas :
    (∀ observed n_games : ℕ,
      calculate_z_score observed n_games =
        if Real.sqrt ((n_games : ℝ) * 0.25 * 0.75) = 0 then 0
        else ((observed : ℝ) - (n_games : ℝ) * 0.25) /
          Real.sqrt ((n_games : ℝ) * 0.25 * 0.75)) ∧
    (∀ z : ℝ, z_to_confidence z = (1 + erf (z / Real.sqrt 2)) / 2 * 100) ∧
    (∀ (freq : ℕ → ℕ) (n_games n : ℕ),
      conf_val freq n_games n = z_to_confidence (calculate_z_score (freq n) n_games)) ∧
    calculate_z_score 25 100 = 0 ∧
    z_to_confidence (calculate_z_score 25 100) = 50 := by
  have herf0 : erf 0 = 0 := by
    unfold erf
    rw [intervalIntegral.integral_same, mul_zero]
  have hz : calculate_z_score 25 100 = 0 := by
    unfold calculate_z_score
    have hpos : (0 : ℝ) < (((100 : ℕ) : ℝ)) * (20 / 80) * (1 - 20 / 80) := by norm_num
    rw [if_neg (Real.sqrt_pos.mpr hpos).ne']
    norm_num
  refine ⟨?_, ?_, ?_, hz, ?_⟩
  · intro observed n_games
    unfold calculate_z_score
    have e : ((n_games : ℝ)) * (20 / 80) * (1 - 20 / 80) = (n_games : ℝ) * 0.25 * 0.75 := by
      norm_num
    rw [e]
    have e2 : ((n_games : ℝ)) * (20 / 80) = (n_games : ℝ) * 0.25 := by norm_num
    rw [e2]
    norm_num
  · intro z
    unfold z_to_confidence norm_cdf
    norm_num
  · intro freq n_games n
    rfl
  · rw [hz]
    unfold z_to_confidence norm_cdf
    rw [zero_div, herf0]
    norm_num

/-! ## C2: the tokenizer can raise -/

/-- C2 (code bug): on a draw whose Numbers cell is the single character "²",
count_frequencies raises ValueError — "²".isdigit() is True, so the code
calls int("²"), which fails because the superscript is not a decimal digit —
instead of silently discarding the token as the spec requires. -/
theorem count_frequencies_raises :
    count_frequencies [⟨1, ['²']⟩] =
      Except.error "ValueError: invalid literal for int" := rfl

/-! ## C9: combined rarity -/

/-- C9: combined_p is the product over the qualifying numbers of
(1 − confidence/100); the qualifying set is exactly the members of the top
10 with confidence at least ALERT_THRESHOLD; and three qualifying numbers at
confidence 95 give a combined rarity of 0.0125 percent. -/
theorem combined_rarity_product :
    (∀ (q : List ℕ) (confidence : ℕ → ℝ),
      combined_p q confidence = (q.map (fun n => 1 - confidence n / 100)).prod) ∧
    (∀ (top_10 : List ℕ) (confidence : ℕ → ℝ) (n : ℕ),
      n ∈ qualifying top_10 confidence ↔ n ∈ top_10 ∧ ALERT_THRESHOLD ≤ confidence n) ∧
    qualifying [1, 2, 3] (fun _ => 95) = [1, 2, 3] ∧
    combined_rarity [1, 2, 3] (fun _ => 95) = 0.0125 := by
  have hthr : ALERT_THRESHOLD ≤ (95 : ℝ) := by
    unfold ALERT_THRESHOLD
    norm_num
  refine ⟨?_, ?_, ?_, ?_⟩
  · intro q confidence
    unfold combined_p
    rw [List.prod_eq_foldl, ← List.foldl_map]
    norm_num
  · intro top_10 confidence n
    unfold qualifying
    simp [List.mem_filter]
  · unfold qualifying
    simp [List.filter, hthr]
  · unfold combined_rarity combined_p
    norm_num

/-! ## C5: cluster and weighted score structure -/

/-- C5: the cluster score of n is the arithmetic mean of the z-scores over n
together with its Moore neighbors — an averaging set of 4 elements at a
corner, 6 on an edge, 9 in the interior — and the weighted score is exactly
0.6·cluster + 0.4·z. -/
theorem cluster_weighted_structure (freq : ℕ → ℕ) (n_games n : ℕ)
    (h1 : 1 ≤ n) (h2 : n ≤ 80) :
    cluster_val freq n_games n =
      (∑ m ∈ insert n (get_neighbors n).toFinset, z_val freq n_games m) /
        ((insert n (get_neighbors n).toFinset).card : ℝ) ∧
    (insert n (get_neighbors n).toFinset).card =
      (if isCorner n then 4 else if isEdgeCell n then 6 else 9) ∧
    weighted_val freq n_games n =
      0.6 * cluster_val freq n_games n + 0.4 * z_val freq n_games n := by
  obtain ⟨hnodup, hnotmem, hsize⟩ := neighbors_facts n (by omega) h1
  have hmem : n ∉ (get_neighbors n).toFinset := by
    simpa [List.mem_toFinset] using hnotmem
  have hcard : (insert n (get_neighbors n).toFinset).card =
      1 + (get_neighbors n).length := by
    rw [Finset.card_insert_of_not_mem hmem, List.toFinset_card_of_nodup hnodup]
    omega
  refine ⟨?_, ?_, rfl⟩
  · unfold cluster_val
    rw [Finset.sum_insert hmem, List.sum_toFinset _ hnodup, hcard]
    simp [add_comm]
  · rw [hcard, hsize]

/-! ## C3: complete counts and defined downstream statistics -/

/-- One accepted token bumps exactly its value's count. -/
theorem addToken_ok (f : ℕ → ℕ) (tok : List Char) (g : ℕ → ℕ)
    (h : addToken f tok = Except.ok g) :
    ∀ n, g n = f n + (if tokenValue tok = some n then 1 else 0) := by
  intro n
  simp only [addToken] at h
  by_cases hd : pyIsDigitStr (pyStrip tok)
  · rw [if_pos hd] at h
    cases hint : pyInt (pyStrip tok) with
    | none =>
      simp only [hint] at h
      exact Except.noConfusion h
    | some k =>
      simp only [hint] at h
      by_cases hr : 1 ≤ k ∧ k ≤ 80
      · rw [if_pos hr] at h
        injection h with h2
        subst h2
        have htv : tokenValue tok = some k := by
          simp [tokenValue, hd, hint, hr]
        rw [htv]
        unfold bump
        by_cases hk : n = k
        · subst hk
          simp
        · have h1 : ¬ (some k = some n) := by
            intro e
            injection e with e2
            exact hk e2.symm
          rw [if_neg hk, if_neg h1]
          simp
      · rw [if_neg hr] at h
        injection h with h2
        subst h2
        have htv : tokenValue tok = none := by
          simp [tokenValue, hd, hint, hr]
        rw [htv]
        simp
  · rw [if_neg hd] at h
    injection h with h2
    subst h2
    have htv : tokenValue tok = none := by
      simp [tokenValue, hd]
    rw [htv]
    simp

/-- Folding the tokens of one draw adds, for each number, the count of its
accepted occurrences. -/
theorem foldTokens_ok :
    ∀ (ts : List (List Char)) (f g : ℕ → ℕ),
      ts.foldlM addToken f = Except.ok g →
      ∀ n, g n = f n + (ts.filterMap tokenValue).count n := by
  intro ts
  induction ts with
  | nil =>
    intro f g h n
    simp only [List.foldlM_nil] at h
    cases h
    simp
  | cons t ts ih =>
    intro f g h n
    rw [List.foldlM_cons] at h
    cases ht : addToken f t with
    | error e => rw [ht] at h; cases h
    | ok f1 =>
      rw [ht] at h
      have h2 : ts.foldlM addToken f1 = Except.ok g := h
      have step := addToken_ok f t f1 ht n
      have rest := ih f1 g h2 n
      rw [rest, step]
      cases htv : tokenValue t with
      | none => simp [List.filterMap_cons, htv]
      | some v =>
        simp only [List.filterMap_cons, htv, List.count_cons]
        by_cases hv : v = n
        · subst hv
          simp
          omega
        · have h1 : ¬ (some v = some n) := by simp [hv]
          simp [h1, hv]

/-- Folding the draw rows adds, for each number, the count of its accepted
occurrences over the window. -/
theorem foldDraws_ok :
    ∀ (df : List DrawRecord) (f g : ℕ → ℕ),
      df.foldlM addDraw f = Except.ok g →
      ∀ n, g n = f n + (acceptedTokens df).count n := by
  intro df
  induction df with
  | nil =>
    intro f g h n
    simp only [List.foldlM_nil] at h
    cases h
    simp [acceptedTokens]
  | cons r df ih =>
    intro f g h n
    rw [List.foldlM_cons] at h
    cases hr : addDraw f r with
    | error e => rw [hr] at h; cases h
    | ok f1 =>
      rw [hr] at h
      have step := foldTokens_ok (drawTokens r.numbers) f f1 hr n
      have rest := ih f1 g h n
      rw [rest, step]
      have : acceptedTokens (r :: df) =
          (drawTokens r.numbers).filterMap tokenValue ++ acceptedTokens df := by
        simp [acceptedTokens]
      rw [this, List.count_append]
      omega

/-- Looking a present key up in a dict built by comprehension over a key
list returns that key's value. -/
theorem lookup_map_keys {β : Type} (f : ℕ → β) :
    ∀ (l : List ℕ) (n : ℕ), n ∈ l →
      (l.map (fun k => (k, f k))).lookup n = some (f n) := by
  intro l
  induction l with
  | nil => intro n h; cases h
  | cons k l ih =>
    intro n h
    by_cases hk : n = k
    · subst hk
      simp [List.lookup]
    · have : n ∈ l := by
        cases h with
        | head => exact absurd rfl hk
        | tail _ h => exact h
      simp only [List.map_cons, List.lookup]
      have hbeq : (n == k) = false := by
        simp [hk]
      rw [hbeq]
      exact ih n this

/-- Membership in the score dicts' key list is exactly 1 ≤ n ≤ 80. -/
theorem mem_scoreKeys (n : ℕ) : n ∈ scoreKeys ↔ 1 ≤ n ∧ n ≤ 80 := by
  unfold scoreKeys
  rw [List.mem_range'_1]
  omega

/-- C3: when count_frequencies returns, every number's count equals the
number of its accepted occurrences in the window — in particular 0 for a
number never observed — and each of the four score dicts has an entry for
every number 1..80, holding that number's statistic. -/
theorem counts_complete (df : List DrawRecord) (freq : ℕ → ℕ)
    (h : count_frequencies df = Except.ok freq) :
    (∀ n, freq n = (acceptedTokens df).count n) ∧
    (∀ n, n ∉ acceptedTokens df → freq n = 0) ∧
    (∀ (n_games n : ℕ), 1 ≤ n → n ≤ 80 →
      (calculate_scores freq n_games).1.lookup n = some (z_val freq n_games n) ∧
      (calculate_scores freq n_games).2.1.lookup n = some (cluster_val freq n_games n) ∧
      (calculate_scores freq n_games).2.2.1.lookup n = some (weighted_val freq n_games n) ∧
      (calculate_scores freq n_games).2.2.2.lookup n = some (conf_val freq n_games n)) := by
  have key : ∀ n, freq n = (acceptedTokens df).count n := by
    intro n
    have := foldDraws_ok df (fun _ => 0) freq h n
    simpa using this
  refine ⟨key, ?_, ?_⟩
  · intro n hn
    rw [key n]
    exact List.count_eq_zero.mpr hn
  · intro n_games n h1 h2
    have hmem : n ∈ scoreKeys := (mem_scoreKeys n).mpr ⟨h1, h2⟩
    unfold calculate_scores
    exact ⟨lookup_map_keys _ scoreKeys n hmem, lookup_map_keys _ scoreKeys n hmem,
      lookup_map_keys _ scoreKeys n hmem, lookup_map_keys _ scoreKeys n hmem⟩

/-- Witness for C3 on the one-draw window "1": the returned count of 1 is
its accepted-occurrence count. -/
theorem counts_complete_witness :
    (fun m => if m = 1 then 1 else 0 : ℕ → ℕ) 1 =
      (acceptedTokens [⟨1, ['1']⟩]).count 1 :=
  (counts_complete [⟨1, ['1']⟩] (fun m => if m = 1 then 1 else 0) rfl).1 1

/-! ## C4: top-10 selection -/

/-- Inserting keeps the multiset: insertDesc is a permutation of consing. -/
theorem insertDesc_perm {α : Type} [LinearOrder α] (key : ℕ → α) (a : ℕ) :
    ∀ l : List ℕ, List.Perm (insertDesc key a l) (a :: l) := by
  intro l
  induction l with
  | nil => exact List.Perm.refl _
  | cons b bs ih =>
    unfold insertDesc
    by_cases h : key b < key a
    · rw [if_pos h]
    · rw [if_neg h]
      exact (ih.cons b).trans (List.Perm.swap a b bs)

/-- Inserting an element that came after everything in an already ranked
list keeps the list ranked: it goes after all elements with an equal or
higher key, so equal keys resolve to the earlier (lower) number first. -/
theorem insertDesc_pairwise {α : Type} [LinearOrder α] (key : ℕ → α) (a : ℕ) :
    ∀ l : List ℕ, List.Pairwise (rankPrecede key) l → (∀ b ∈ l, b < a) →
      List.Pairwise (rankPrecede key) (insertDesc key a l) := by
  intro l
  induction l with
  | nil =>
    intro _ _
    simp [insertDesc]
  | cons b bs ih =>
    intro hp hlt
    rw [List.pairwise_cons] at hp
    obtain ⟨hb, hbs⟩ := hp
    unfold insertDesc
    by_cases h : key b < key a
    · rw [if_pos h]
      rw [List.pairwise_cons]
      constructor
      · intro x hx
        cases hx with
        | head => exact Or.inl h
        | tail _ hx =>
          cases hb x hx with
          | inl hlt2 => exact Or.inl (lt_trans hlt2 h)
          | inr heq => exact Or.inl (heq.1 ▸ h)
      · rw [List.pairwise_cons]
        exact ⟨hb, hbs⟩
    · rw [if_neg h]
      rw [List.pairwise_cons]
      constructor
      · intro x hx
        have hx2 : x ∈ a :: bs := (insertDesc_perm key a bs).mem_iff.mp hx
        cases hx2 with
        | head =>
          rcases lt_or_eq_of_le (le_of_not_lt h) with hlt2 | heq
          · exact Or.inl hlt2
          · exact Or.inr ⟨heq, hlt b (List.mem_cons_self b bs)⟩
        | tail _ hx2 => exact hb x hx2
      · exact ih hbs (fun x hx => hlt x (List.mem_cons_of_mem b hx))

/-- Folding a strictly ascending worklist through insertDesc produces a
ranked permutation of the input together with the accumulator. -/
theorem pySortDesc_fold {α : Type} [LinearOrder α] (key : ℕ → α) :
    ∀ (l acc : List ℕ),
      List.Pairwise (rankPrecede key) acc →
      (∀ a ∈ l, ∀ b ∈ acc, b < a) →
      List.Pairwise (· < ·) l →
      List.Pairwise (rankPrecede key)
        (List.foldl (fun acc a => insertDesc key a acc) acc l) ∧
      List.Perm (List.foldl (fun acc a => insertDesc key a acc) acc l) (l ++ acc) := by
  intro l
  induction l with
  | nil =>
    intro acc hacc _ _
    exact ⟨hacc, List.Perm.refl _⟩
  | cons a l ih =>
    intro acc hacc hcross hasc
    rw [List.pairwise_cons] at hasc
    obtain ⟨ha, hl⟩ := hasc
    rw [List.foldl_cons]
    have hacc2 : List.Pairwise (rankPrecede key) (insertDesc key a acc) :=
      insertDesc_pairwise key a acc hacc
        (fun b hb => hcross a (List.mem_cons_self a l) b hb)
    have hcross2 : ∀ x ∈ l, ∀ b ∈ insertDesc key a acc, b < x := by
      intro x hx b hb
      have hb2 : b ∈ a :: acc := (insertDesc_perm key a acc).mem_iff.mp hb
      cases hb2 with
      | head => exact ha x hx
      | tail _ hb2 => exact hcross x (List.mem_cons_of_mem a hx) b hb2
    obtain ⟨hp, hperm⟩ := ih (insertDesc key a acc) hacc2 hcross2 hl
    refine ⟨hp, ?_⟩
    have step1 : List.Perm (l ++ insertDesc key a acc) (l ++ (a :: acc)) :=
      List.Perm.append_left l (insertDesc_perm key a acc)
    exact (hperm.trans step1).trans (List.perm_middle)

/-- The full ranked list: a ranked permutation of the 80 keys. -/
theorem pySortDesc_spec {α : Type} [LinearOrder α] (key : ℕ → α) :
    List.Pairwise (rankPrecede key) (pySortDesc key scoreKeys) ∧
    List.Perm (pySortDesc key scoreKeys) scoreKeys := by
  have hasc : List.Pairwise (· < ·) scoreKeys := by decide
  have := pySortDesc_fold key scoreKeys [] (List.Pairwise.nil)
    (by intro a _ b hb; cases hb) hasc
  simpa [pySortDesc] using this

/-- C4: select_top_10 returns 10 distinct numbers from 1..80, internally
ranked by descending weighted score with equal scores resolving to the
lower number first, and every number left out is ranked below (or ties at a
higher number than) every selected one. -/
theorem select_top_10_spec {α : Type} [LinearOrder α] (weighted_scores : ℕ → α) :
    (select_top_10 weighted_scores).length = 10 ∧
    (select_top_10 weighted_scores).Nodup ∧
    (∀ n ∈ select_top_10 weighted_scores, n ∈ scoreKeys) ∧
    List.Pairwise (rankPrecede weighted_scores) (select_top_10 weighted_scores) ∧
    (∀ m ∈ scoreKeys, m ∉ select_top_10 weighted_scores →
      ∀ n ∈ select_top_10 weighted_scores, rankPrecede weighted_scores n m) := by
  obtain ⟨hp, hperm⟩ := pySortDesc_spec weighted_scores
  have hlen : (pySortDesc weighted_scores scoreKeys).length = 80 := by
    rw [hperm.length_eq]
    decide
  have hnodupS : (pySortDesc weighted_scores scoreKeys).Nodup := by
    have : scoreKeys.Nodup := by decide
    exact (hperm.nodup_iff).mpr this
  refine ⟨?_, ?_, ?_, ?_, ?_⟩
  · unfold select_top_10
    rw [List.length_take, hlen]
    decide
  · exact (List.take_sublist 10 _).nodup hnodupS
  · intro n hn
    have : n ∈ pySortDesc weighted_scores scoreKeys :=
      List.take_subset 10 _ hn
    exact hperm.mem_iff.mp this
  · exact hp.sublist (List.take_sublist 10 _)
  · intro m hm hmout n hn
    have hmS : m ∈ pySortDesc weighted_scores scoreKeys := hperm.mem_iff.mpr hm
    have hsplit := List.take_append_drop 10 (pySortDesc weighted_scores scoreKeys)
    have hmdrop : m ∈ (pySortDesc weighted_scores scoreKeys).drop 10 := by
      rcases (List.mem_append.mp (by rw [hsplit]; exact hmS)) with h | h
      · exact absurd h hmout
      · exact h
    have hp2 : List.Pairwise (rankPrecede weighted_scores)
        ((pySortDesc weighted_scores scoreKeys).take 10 ++
          (pySortDesc weighted_scores scoreKeys).drop 10) := by
      rw [hsplit]
      exact hp
    exact (List.pairwise_append.mp hp2).2.2 n hn m hmdrop

/-- Witness for C4: with all scores equal, the tie-break alone ranks the
numbers, so the selection is exactly 1..10 (lower numbers first). -/
theorem select_top_10_spec_witness :
    (select_top_10 (fun _ => (0 : ℕ))).length = 10 ∧
    select_top_10 (fun _ => (0 : ℕ)) = List.range' 1 10 :=
  ⟨(select_top_10_spec (fun _ => (0 : ℕ))).1, by decide⟩

/-- Witness for C5 at n = 1 (a corner) with the zero frequency table. -/
theorem cluster_weighted_structure_witness :
    cluster_val (fun _ => 0) 0 1 =
      (∑ m ∈ insert 1 (get_neighbors 1).toFinset, z_val (fun _ => 0) 0 m) /
        ((insert 1 (get_neighbors 1).toFinset).card : ℝ) ∧
    (insert 1 (get_neighbors 1).toFinset).card =
      (if isCorner 1 then 4 else if isEdgeCell 1 then 6 else 9) ∧
    weighted_val (fun _ => 0) 0 1 =
      0.6 * cluster_val (fun _ => 0) 0 1 + 0.4 * z_val (fun _ => 0) 0 1 :=
  cluster_weighted_structure (fun _ => 0) 0 1 (by norm_num) (by norm_num)

/-! ## C1: dominant region and its tie-break -/

/-- Python max(key=f) returns an element whose key bounds the initial
element and every scanned element. -/
theorem pyMaxAux_le (f : String → ℕ) :
    ∀ (ks : List String) (b : String),
      f b ≤ f (pyMaxAux f b ks) ∧ ∀ x ∈ ks, f x ≤ f (pyMaxAux f b ks) := by
  intro ks
  induction ks with
  | nil =>
    intro b
    exact ⟨le_refl _, by intro x hx; cases hx⟩
  | cons x xs ih =>
    intro b
    unfold pyMaxAux
    obtain ⟨h1, h2⟩ := ih (if f b < f x then x else b)
    have hb : f b ≤ f (if f b < f x then x else b) := by
      by_cases h : f b < f x
      · rw [if_pos h]; exact le_of_lt h
      · rw [if_neg h]
    have hx : f x ≤ f (if f b < f x then x else b) := by
      by_cases h : f b < f x
      · rw [if_pos h]
      · rw [if_neg h]; exact le_of_not_lt h
    refine ⟨le_trans hb h1, ?_⟩
    intro y hy
    cases hy with
    | head => exact le_trans hx h1
    | tail _ hy => exact h2 y hy

/-- Python max(key=f) returns the first element attaining the running
maximum: everything scanned before it has a strictly smaller key. -/
theorem pyMaxAux_first (f : String → ℕ) :
    ∀ (ks : List String) (b : String),
      ∃ p q, b :: ks = p ++ pyMaxAux f b ks :: q ∧
        ∀ x ∈ p, f x < f (pyMaxAux f b ks) := by
  intro ks
  induction ks with
  | nil =>
    intro b
    exact ⟨[], [], rfl, by intro x hx; cases hx⟩
  | cons x xs ih =>
    intro b
    unfold pyMaxAux
    by_cases h : f b < f x
    · rw [if_pos h]
      obtain ⟨p, q, hpq, hlt⟩ := ih x
      refine ⟨b :: p, q, ?_, ?_⟩
      · rw [List.cons_append, ← hpq]
      · intro y hy
        cases hy with
        | head =>
          have := (pyMaxAux_le f xs x).1
          exact lt_of_lt_of_le h this
        | tail _ hy => exact hlt y hy
    · rw [if_neg h]
      obtain ⟨p, q, hpq, hlt⟩ := ih b
      cases p with
      | nil =>
        simp only [List.nil_append] at hpq
        refine ⟨[], x :: xs, ?_, by intro y hy; cases hy⟩
        rw [List.nil_append]
        rw [List.cons.injEq] at hpq
        rw [← hpq.1]
      | cons b0 p2 =>
        rw [List.cons_append, List.cons.injEq] at hpq
        obtain ⟨hb0, hxs⟩ := hpq
        refine ⟨b :: x :: p2, q, ?_, ?_⟩
        · rw [List.cons_append, List.cons_append, ← hxs]
        · intro y hy
          have hbr : f b < f (pyMaxAux f b xs) := by
            have := hlt b0 (List.mem_cons_self b0 p2)
            rw [← hb0] at this
            exact this
          cases hy with
          | head => exact hbr
          | tail _ hy =>
            cases hy with
            | head => exact lt_of_le_of_lt (le_of_not_lt h) hbr
            | tail _ hy => exact hlt y (List.mem_cons_of_mem b0 hy)

/-- The value side of region_counts: each region's tally is its occurrence
count among the scanned regions. -/
theorem region_counts_val_eq :
    ∀ (t : List ℕ) (d : PyCountDict) (x : String),
      (List.foldl (fun d n => incrKey d (get_board_region n)) d t).val x =
        d.val x + (t.map get_board_region).count x := by
  intro t
  induction t with
  | nil =>
    intro d x
    simp
  | cons n t ih =>
    intro d x
    rw [List.foldl_cons, ih, List.map_cons]
    dsimp only [incrKey]
    by_cases hx : x = get_board_region n
    · rw [if_pos hx, hx, List.count_cons_self]
      omega
    · rw [if_neg hx, List.count_cons_of_ne hx]

/-- The key side of region_counts coincides with folding the bare key
insertion over the scanned regions. -/
theorem region_counts_keys_eq :
    ∀ (t : List ℕ) (d : PyCountDict),
      (List.foldl (fun d n => incrKey d (get_board_region n)) d t).keys =
        List.foldl (fun acc r => if r ∈ acc then acc else acc ++ [r]) d.keys
          (t.map get_board_region) := by
  intro t
  induction t with
  | nil => intro d; simp
  | cons n t ih =>
    intro d
    rw [List.foldl_cons, List.map_cons, List.foldl_cons, ih]
    rfl

/-- Folding key insertion appends, to the accumulator, the first
occurrences of the new elements in scan order. -/
theorem keys_fold :
    ∀ (m ks : List String),
      List.foldl (fun acc r => if r ∈ acc then acc else acc ++ [r]) ks m =
        ks ++ (dictKeys m).filter (fun x => decide (x ∉ ks)) := by
  intro m
  induction m with
  | nil => intro ks; simp [dictKeys]
  | cons r m ih =>
    intro ks
    rw [List.foldl_cons]
    simp only [dictKeys]
    rw [List.filter_cons]
    by_cases hr : r ∈ ks
    · rw [if_pos hr, ih ks]
      have hPr : (decide (r ∉ ks)) = false := by simp [hr]
      rw [hPr]
      simp only [Bool.false_eq_true, if_false]
      congr 1
      rw [List.filter_filter]
      apply List.filter_congr
      intro x hx
      by_cases hxk : x ∈ ks
      · simp [hxk]
      · have hxr : x ≠ r := fun e => hxk (e ▸ hr)
        simp [hxk, hxr]
    · rw [if_neg hr, ih (ks ++ [r])]
      have hPr : (decide (r ∉ ks)) = true := by simp [hr]
      rw [hPr]
      simp only [if_true]
      rw [List.append_assoc, List.singleton_append]
      congr 2
      rw [List.filter_filter]
      apply List.filter_congr
      intro x hx
      by_cases hxr : x = r
      · subst hxr
        simp
      · by_cases hxk : x ∈ ks
        · simp [hxk, hxr]
        · simp [hxk, hxr]

/-- The keys of region_counts are the distinct scanned regions in
first-occurrence order. -/
theorem region_counts_keys (t : List ℕ) :
    (region_counts t).keys = dictKeys (t.map get_board_region) := by
  unfold region_counts
  rw [region_counts_keys_eq]
  rw [keys_fold]
  simp

/-- The tally function of region_counts. -/
theorem region_counts_val (t : List ℕ) :
    (region_counts t).val = fun x => (t.map get_board_region).count x := by
  funext x
  unfold region_counts
  rw [region_counts_val_eq]
  simp

/-- Membership in dictKeys is membership in the scanned list. -/
theorem mem_dictKeys : ∀ (m : List String) (x : String), x ∈ dictKeys m ↔ x ∈ m := by
  intro m
  induction m with
  | nil => intro x; simp [dictKeys]
  | cons r m ih =>
    intro x
    simp only [dictKeys, List.mem_cons, List.mem_filter, ih]
    by_cases hx : x = r
    · simp [hx]
    · simp [hx]

/-- A decomposition of a filtered list lifts to the unfiltered list, the
prefix filtering back to the given prefix. -/
theorem filter_decomp {p : String → Bool} :
    ∀ (l u v : List String) (b : String),
      l.filter p = u ++ b :: v → ∃ u2 v2, l = u2 ++ b :: v2 ∧ u2.filter p = u := by
  intro l
  induction l with
  | nil =>
    intro u v b h
    rw [List.filter_nil] at h
    cases u with
    | nil => cases h
    | cons a u => cases h
  | cons a l ih =>
    intro u v b h
    rw [List.filter_cons] at h
    by_cases hpa : p a = true
    · rw [if_pos hpa] at h
      cases u with
      | nil =>
        rw [List.nil_append, List.cons.injEq] at h
        refine ⟨[], l, ?_, rfl⟩
        rw [List.nil_append, ← h.1]
      | cons a2 u2 =>
        rw [List.cons_append, List.cons.injEq] at h
        obtain ⟨ha2, hrest⟩ := h
        obtain ⟨u3, v3, hl, hu3⟩ := ih u2 v b hrest
        refine ⟨a :: u3, v3, ?_, ?_⟩
        · rw [hl, List.cons_append]
        · rw [List.filter_cons, if_pos hpa, hu3, ha2]
    · rw [if_neg hpa] at h
      obtain ⟨u3, v3, hl, hu3⟩ := ih u v b h
      refine ⟨a :: u3, v3, ?_, ?_⟩
      · rw [hl, List.cons_append]
      · rw [List.filter_cons, if_neg hpa, hu3]

/-- A decomposition of dictKeys at b lifts to a decomposition of the scanned
list at b whose prefix only holds keys that precede b in dictKeys. -/
theorem dictKeys_decomp :
    ∀ (m p q : List String) (b : String),
      dictKeys m = p ++ b :: q →
      ∃ p2 q2, m = p2 ++ b :: q2 ∧ ∀ x ∈ p2, x ∈ p := by
  intro m
  induction m with
  | nil =>
    intro p q b h
    simp only [dictKeys] at h
    cases p with
    | nil => cases h
    | cons a p => cases h
  | cons a m ih =>
    intro p q b h
    simp only [dictKeys] at h
    cases p with
    | nil =>
      rw [List.nil_append, List.cons.injEq] at h
      refine ⟨[], m, ?_, by intro x hx; cases hx⟩
      rw [List.nil_append, h.1]
    | cons a2 p2 =>
      rw [List.cons_append, List.cons.injEq] at h
      obtain ⟨ha2, hrest⟩ := h
      obtain ⟨u2, v2, hdk, hfil⟩ := filter_decomp (dictKeys m) p2 q b hrest
      obtain ⟨p3, q3, hm, hp3⟩ := ih u2 v2 b hdk
      refine ⟨a :: p3, q3, ?_, ?_⟩
      · rw [hm, List.cons_append]
      · intro x hx
        cases hx with
        | head =>
          rw [ha2]
          exact List.mem_cons_self a2 p2
        | tail _ hx =>
          have hxu2 : x ∈ u2 := hp3 x hx
          by_cases hxa : x = a2
          · rw [hxa]
            exact List.mem_cons_self a2 p2
          · have hxa2 : x ≠ a := fun e => hxa (e.trans ha2)
            have hxp2 : x ∈ p2 := by
              rw [← hfil, List.mem_filter]
              exact ⟨hxu2, by simp [hxa2]⟩
            exact List.mem_cons_of_mem a2 hxp2

/-- If every element of a prefix fails the predicate, find? skips it. -/
theorem find?_skip_prefix {p : String → Bool} :
    ∀ (u v : List String), (∀ x ∈ u, p x = false) → (u ++ v).find? p = v.find? p := by
  intro u
  induction u with
  | nil => intro v _; rw [List.nil_append]
  | cons a u ih =>
    intro v h
    rw [List.cons_append]
    rw [List.find?_cons_of_neg _ (by rw [h a (List.mem_cons_self a u)]; simp)]
    exact ih v (fun x hx => h x (List.mem_cons_of_mem a hx))

/-- find? returns the head of the suffix once the prefix wholly fails. -/
theorem find?_first {p : String → Bool} (l u v : List String) (c : String)
    (hl : l = u ++ c :: v) (hu : ∀ x ∈ u, p x = false) (hc : p c = true) :
    l.find? p = some c := by
  rw [hl, find?_skip_prefix u (c :: v) hu, List.find?_cons_of_pos _ hc]

/-- Python max over the insertion-ordered keys is the first scanned region
whose tally is maximal. -/
theorem firstmax_core (m : List String) (k : String) (ks : List String)
    (hdk : dictKeys m = k :: ks) :
    m.find? (fun r => m.all (fun x => m.count x ≤ m.count r)) =
      some (pyMaxAux (fun x => m.count x) k ks) := by
  set f : String → ℕ := fun x => m.count x with hf
  set b := pyMaxAux f k ks with hb
  obtain ⟨hk, hmax⟩ := pyMaxAux_le f ks k
  obtain ⟨p, q, hpq, hplt⟩ := pyMaxAux_first f ks k
  have hdkpq : dictKeys m = p ++ b :: q := hdk.trans hpq
  have hbm : b ∈ m := by
    have hbdk : b ∈ dictKeys m := by
      rw [hdkpq]
      exact List.mem_append_right p (List.mem_cons_self b q)
    exact (mem_dictKeys m b).mp hbdk
  have hmaxm : ∀ x ∈ m, f x ≤ f b := by
    intro x hx
    have hxdk : x ∈ dictKeys m := (mem_dictKeys m x).mpr hx
    rw [hdk] at hxdk
    cases hxdk with
    | head => exact hk
    | tail _ hxk => exact hmax x hxk
  obtain ⟨p2, q2, hm2, hp2⟩ := dictKeys_decomp m p q b hdkpq
  apply find?_first m p2 q2 b hm2
  · intro x hx
    rw [List.all_eq_false]
    refine ⟨b, hbm, ?_⟩
    have hxlt : m.count x < m.count b := hplt x (hp2 x hx)
    simp only [decide_eq_true_eq, not_le]
    exact hxlt
  · rw [List.all_eq_true]
    intro y hy
    exact decide_eq_true (hmaxm y hy)

/-- C1 (amended): find_dominant_cluster_region returns a region, namely the
region with the highest tally among the top numbers' regions; of several
regions tied at the highest tally the winner is the tied region encountered
first when scanning the top-10 numbers in rank order — equivalently, the
result is the first scanned region whose tally is maximal.  (The claim's
first-region-to-REACH-the-maximum-tally rule differs; see the
counterexample.) -/
theorem dominant_region_first_encountered (top_10 : List ℕ) (h : top_10 ≠ []) :
    (find_dominant_cluster_region top_10).isSome = true ∧
    find_dominant_cluster_region top_10 =
      (top_10.map get_board_region).find?
        (fun r => (top_10.map get_board_region).all
          (fun x => regionTally top_10 x ≤ regionTally top_10 r)) := by
  have hmne : top_10.map get_board_region ≠ [] := by
    intro he
    exact h (List.map_eq_nil_iff.mp he)
  obtain ⟨k, ks, hdk⟩ :
      ∃ k ks, dictKeys (top_10.map get_board_region) = k :: ks := by
    cases hmm : top_10.map get_board_region with
    | nil => exact absurd hmm hmne
    | cons a m2 =>
      exact ⟨a, (dictKeys m2).filter (fun x => decide (x ≠ a)), rfl⟩
  have hfd : find_dominant_cluster_region top_10 =
      some (pyMaxAux (fun x => (top_10.map get_board_region).count x) k ks) := by
    unfold find_dominant_cluster_region
    rw [region_counts_keys, region_counts_val, hdk]
  constructor
  · rw [hfd]
    rfl
  · rw [hfd]
    simp only [regionTally]
    rw [firstmax_core (top_10.map get_board_region) k ks hdk]

/-- Witness for C1 (amended) on the one-element list [1]. -/
theorem dominant_region_first_encountered_witness :
    (find_dominant_cluster_region [1]).isSome = true ∧
    find_dominant_cluster_region [1] =
      ([1].map get_board_region).find?
        (fun r => ([1].map get_board_region).all
          (fun x => regionTally [1] x ≤ regionTally [1] r)) :=
  dominant_region_first_encountered [1] (by simp)

/-- Counterexample for C1 as stated: on the top-10 list [1, 7, 8, 5, 31, 35,
37, 51, 55, 2] the regions Top-Left (ranks 1 and 10) and Top-Right (ranks 2
and 3) tie at the maximum tally 2; Top-Right is the first to REACH tally 2
(at rank 3), but the code returns Top-Left, the tied region first
encountered (at rank 1). -/
theorem dominant_region_claim_counterexample :
    find_dominant_cluster_region [1, 7, 8, 5, 31, 35, 37, 51, 55, 2] =
        some "Top-Left" ∧
    firstRegionToReachMax [1, 7, 8, 5, 31, 35, 37, 51, 55, 2] =
        some "Top-Right" ∧
    ("Top-Left" : String) ≠ "Top-Right" := by
  refine ⟨by decide, by decide, by decide⟩

/-! ## C8: window-size boundary and the two terminal outcomes -/

/-- Insertion grows the length by one. -/
theorem insertAsc_length (r : DrawRecord) :
    ∀ l : List DrawRecord, (insertAsc r l).length = l.length + 1 := by
  intro l
  induction l with
  | nil => rfl
  | cons b bs ih =>
    unfold insertAsc
    by_cases h : r.gameId < b.gameId
    · rw [if_pos h]
      rfl
    · rw [if_neg h]
      simp [ih]

/-- The sort's fold preserves total length. -/
theorem sortById_length_aux :
    ∀ (l acc : List DrawRecord),
      (List.foldl (fun acc r => insertAsc r acc) acc l).length =
        acc.length + l.length := by
  intro l
  induction l with
  | nil => intro acc; simp
  | cons r l ih =>
    intro acc
    rw [List.foldl_cons, ih, insertAsc_length]
    simp only [List.length_cons]
    omega

/-- Sorting preserves the number of rows. -/
theorem sortById_length (recs : List DrawRecord) :
    (sortById recs).length = recs.length := by
  unfold sortById
  rw [sortById_length_aux]
  simp

/-- Inserting a record into copies of itself appends it. -/
theorem insertAsc_replicate (r : DrawRecord) :
    ∀ n : ℕ, insertAsc r (List.replicate n r) = List.replicate (n + 1) r := by
  intro n
  induction n with
  | zero => rfl
  | succ n ih =>
    rw [List.replicate_succ]
    unfold insertAsc
    rw [if_neg (lt_irrefl r.gameId), ih]
    rfl

/-- Folding copies of one record through the insertion sort accumulates
copies. -/
theorem sortById_replicate_aux (r : DrawRecord) :
    ∀ n k : ℕ,
      List.foldl (fun acc x => insertAsc x acc) (List.replicate k r)
          (List.replicate n r) =
        List.replicate (k + n) r := by
  intro n
  induction n with
  | zero => intro k; simp
  | succ n ih =>
    intro k
    rw [List.replicate_succ, List.foldl_cons, insertAsc_replicate, ih]
    congr 1
    omega

/-- Sorting the all-identical bad window is the identity. -/
theorem sortById_badWindow : sortById badWindow = badWindow := by
  unfold sortById badWindow
  have := sortById_replicate_aux ⟨1, ['²']⟩ MIN_GAMES_REQUIRED 0
  simpa using this

/-- C8 (code bug): a window one below the minimum yields the skip outcome
with no scoring; a window of exactly the minimum size whose counting
returns is accepted and scored into a completed outcome; but contrary to
the claim's "no error escapes as an exception", run_analyzer on a
minimum-size window whose Numbers cells are the superscript "²" propagates
count_frequencies' ValueError instead of reaching either outcome. -/
theorem run_analyzer_boundary :
    (∀ recs : List DrawRecord, recs.length = MIN_GAMES_REQUIRED - 1 →
      run_analyzer recs = Except.ok Outcome.skipped) ∧
    (∀ (recs : List DrawRecord) (freq : ℕ → ℕ),
      recs.length = MIN_GAMES_REQUIRED →
      count_frequencies (sortById recs) = Except.ok freq →
      run_analyzer recs = Except.ok (Outcome.completed
        (select_top_10 (weighted_val freq MIN_GAMES_REQUIRED))
        (find_dominant_cluster_region
          (select_top_10 (weighted_val freq MIN_GAMES_REQUIRED)))
        (qualifying (select_top_10 (weighted_val freq MIN_GAMES_REQUIRED))
          (conf_val freq MIN_GAMES_REQUIRED)).length)) ∧
    run_analyzer badWindow =
      Except.error "ValueError: invalid literal for int" := by
  refine ⟨?_, ?_, ?_⟩
  · intro recs h
    have hload : load_and_prepare_data recs = none := by
      unfold load_and_prepare_data
      rw [if_pos]
      rw [sortById_length, h]
      unfold MIN_GAMES_REQUIRED
      omega
    simp only [run_analyzer, hload]
  · intro recs freq h hc
    have hlen : (sortById recs).length = MIN_GAMES_REQUIRED := by
      rw [sortById_length, h]
    have htail : pyTail GAMES_TO_ANALYZE (sortById recs) = sortById recs := by
      unfold pyTail
      rw [hlen]
      norm_num [MIN_GAMES_REQUIRED, GAMES_TO_ANALYZE]
    have hload : load_and_prepare_data recs = some (sortById recs) := by
      unfold load_and_prepare_data
      rw [if_neg (by rw [hlen]; exact lt_irrefl _), htail]
    simp only [run_analyzer, hload, hlen]
    rw [hc]
    rfl
  · have hblen : badWindow.length = MIN_GAMES_REQUIRED := by
      unfold badWindow
      simp
    have htail : pyTail GAMES_TO_ANALYZE badWindow = badWindow := by
      unfold pyTail
      rw [hblen]
      norm_num [MIN_GAMES_REQUIRED, GAMES_TO_ANALYZE]
    have hload : load_and_prepare_data badWindow = some badWindow := by
      unfold load_and_prepare_data
      rw [sortById_badWindow, htail]
      rw [if_neg (by rw [hblen]; exact lt_irrefl _)]
    have hcf : count_frequencies badWindow =
        Except.error "ValueError: invalid literal for int" := by
      unfold badWindow MIN_GAMES_REQUIRED
      rfl
    simp only [run_analyzer, hload]
    rw [hcf]
    rfl

/-- Witness for C8 on a 99-draw window: the run is skipped. -/
theorem run_analyzer_boundary_witness :
    run_analyzer (List.replicate 99 ⟨1, ['1']⟩) = Except.ok Outcome.skipped :=
  run_analyzer_boundary.1 (List.replicate 99 ⟨1, ['1']⟩)
    (by simp [MIN_GAMES_REQUIRED])

end KenoTracker
